import Mathlib

/-!
Verification of coroot's lazy time-series aggregation engine
(`timeseries` package, `format.go`) and the SLO burn-rate detector
(`model` package, `api.go`).

Shallow embedding conventions:

* Go `float64` is modelled by `Coroot.Value`: an exact rational extended
  with a `nan` (missing) state and signed infinities.  The claims under
  study are about NaN propagation, division by zero and comparisons
  against thresholds, none of which depend on rounding, so exact
  rational arithmetic is a faithful idealization (signed zero is
  collapsed to `fin 0`, which no claim distinguishes).
* `timeseries.Time` and `timeseries.Duration` are integers (seconds on
  the fixed grid); only ordering, addition and subtraction are used.
* A `timeseries.TimeSeries` interface value is the inductive
  `Coroot.TimeSeries`: `null` is a nil interface value, `leaf` a fetched
  backing series, and `agg` is `AggregatedTimeseries{input, aggFunc}`.
* Iterators are represented by the point sequence they produce:
  `TimeSeries.seq ts` is the list of `(Time, Value)` pairs yielded by
  exhausting `ts.iter()`.  `TimeSeries.live ts` says that `ts` is a
  non-nil series whose `iter()` is not the distinguished `NilIterator`.
-/

namespace Coroot

/-- Go `float64`, modelled as an exact rational extended with the
missing/NaN state and the two infinities (`inf true` is `+Inf`,
`inf false` is `-Inf`). -/
inductive Value where
  | nan : Value
  | inf (pos : Bool) : Value
  | fin (q : ℚ) : Value
deriving DecidableEq, Repr

/-- Embedding of `math.IsNaN`. -/
def Value.isNaN : Value → Bool
  | .nan => true
  | _ => false

/-- IEEE-754 addition on the embedded values. -/
def Value.add : Value → Value → Value
  | .nan, _ => .nan
  | _, .nan => .nan
  | .inf b1, .inf b2 => if b1 = b2 then .inf b1 else .nan
  | .inf b, .fin _ => .inf b
  | .fin _, .inf b => .inf b
  | .fin a, .fin b => .fin (a + b)

/-- IEEE-754 division on the embedded values: `0/0`, `NaN/x`, `x/NaN`
and `Inf/Inf` are NaN; a nonzero finite numerator over zero gives a
signed infinity; a finite numerator over an infinity gives zero. -/
def Value.div : Value → Value → Value
  | .nan, _ => .nan
  | _, .nan => .nan
  | .inf _, .inf _ => .nan
  | .inf b, .fin q => if q < 0 then .inf (!b) else .inf b
  | .fin _, .inf _ => .fin 0
  | .fin a, .fin b =>
    if b = 0 then (if a = 0 then .nan else .inf (decide (0 < a)))
    else .fin (a / b)

/-- IEEE-754 `<`: any comparison involving NaN is false. -/
def Value.lt : Value → Value → Bool
  | .nan, _ => false
  | _, .nan => false
  | .inf b1, .inf b2 => !b1 && b2
  | .inf b, .fin _ => !b
  | .fin _, .inf b => b
  | .fin a, .fin b => decide (a < b)

/-- IEEE-754 `<=`: any comparison involving NaN is false. -/
def Value.le : Value → Value → Bool
  | .nan, _ => false
  | _, .nan => false
  | .inf b1, .inf b2 => (b1 == b2) || (!b1 && b2)
  | .inf b, .fin _ => !b
  | .fin _, .inf b => b
  | .fin a, .fin b => decide (a ≤ b)

/-- Embedding of `timeseries.Time`: a point on the fixed epoch-aligned grid. -/
abbrev Time := Int

/-- Embedding of `timeseries.Duration`: a signed span on the same grid. -/
abbrev Duration := Int

def Minute : Duration := 60

def Hour : Duration := 60 * Minute

def Day : Duration := 24 * Hour

/-- Embedding of `timeseries.F`, the reducer type:
`func(t Time, accumulator, v float64) float64`. -/
abbrev F := Time → Value → Value → Value

/-- Modelled from the spec: the NaN-aware sum reducer `timeseries.NanSum`
(its body is not in the sources under study).  Spec 4.2: "`sum(acc, v) =
v` if `acc` is missing; `acc` if `v` is missing; else `acc + v`". -/
def NanSum (_ : Time) (sum v : Value) : Value :=
  if sum.isNaN then v else if v.isNaN then sum else sum.add v

/-- A `timeseries.TimeSeries` interface value: `null` is a nil interface
value; `leaf` (modelled from the spec) is a fetched/stored backing
series holding its points; `agg` is an `AggregatedTimeseries` with its
`aggFunc` reducer and `input` list. -/
inductive TimeSeries where
  | null : TimeSeries
  | leaf (points : List (Time × Value)) : TimeSeries
  | agg (aggFunc : F) (input : List TimeSeries) : TimeSeries

/-- Whether the interface value is nil (`ts == nil` in Go). -/
def TimeSeries.isNull : TimeSeries → Bool
  | .null => true
  | _ => false

mutual

/-- Predicate: `ts` is non-nil and `ts.iter()` is not a `NilIterator`: exactly the
inputs that `AggregatedTimeseries.iter` keeps in its lockstep set.  A
leaf produces the distinguished empty iterator iff it has no points
(modelled from the spec: the empty iterator "is the canonical
representation of no usable series"); an `AggregatedTimeseries.iter`
returns a `NilIterator` iff no input contributes a non-Nil iterator. -/
def TimeSeries.live : TimeSeries → Bool
  | .null => false
  | .leaf points => !points.isEmpty
  | .agg _ input => TimeSeries.anyLive input

/-- Does some member of the input list contribute a non-Nil iterator? -/
def TimeSeries.anyLive : List TimeSeries → Bool
  | [] => false
  | t :: rest => TimeSeries.live t || TimeSeries.anyLive rest

end

/-- One lockstep advance of `aggregatingIterator.Next`: each input
iterator (represented by its remaining points) is advanced in order; if
any input is exhausted the whole aggregation reports exhaustion
(`none`), otherwise the current points and the remaining tails are
returned. -/
def headsTails : List (List (Time × Value)) →
    Option (List (Time × Value) × List (List (Time × Value)))
  | [] => some ([], [])
  | [] :: _ => none
  | (p :: tl) :: rest =>
    match headsTails rest with
    | none => none
    | some (hs, tls) => some (p :: hs, tl :: tls)

/-- Embedding of `aggregatingIterator.Value`, given the current `(Time, Value)` pair
of every input iterator: with exactly two inputs the reducer is applied
directly to the two current values at the first input's timestamp;
otherwise the current values are folded left-to-right through the
reducer starting from the NaN accumulator (and the zero-valued time). -/
def aggValue (f : F) (cur : List (Time × Value)) : Time × Value :=
  if cur.length = 2 then
    let p1 := cur.getD 0 (0, Value.nan)
    let p2 := cur.getD 1 (0, Value.nan)
    (p1.1, f p1.1 p1.2 p2.2)
  else
    cur.foldl (fun acc p => (p.1, f p.1 acc.2 p.2)) (0, Value.nan)

/-- The full run of an `aggregatingIterator` over the given input point
sequences, with explicit fuel (the fuel used by `combine` strictly
exceeds the number of possible lockstep steps, so it never cuts the run
short). -/
def combineAux (f : F) : Nat → List (List (Time × Value)) → List (Time × Value)
  | 0, _ => []
  | n + 1, seqs =>
    match headsTails seqs with
    | none => []
    | some (hs, tls) => aggValue f hs :: combineAux f n tls

/-- The point sequence produced by an `aggregatingIterator` over the
given input sequences.  A Go `aggregatingIterator` is only ever
constructed with a non-empty input set; for the empty set this denotes
the `NilIterator` (no points). -/
def combine (f : F) (seqs : List (List (Time × Value))) : List (Time × Value) :=
  if seqs.isEmpty then [] else combineAux f ((seqs.map List.length).sum + 1) seqs

mutual

/-- The `(Time, Value)` sequence produced by exhausting `ts.iter()`:
a nil series and a pointless leaf yield nothing; a leaf yields its
stored points; `AggregatedTimeseries.iter` drives the kept (live) input
iterators in lockstep through `aggregatingIterator.Next`/`Value`. -/
def TimeSeries.seq : TimeSeries → List (Time × Value)
  | .null => []
  | .leaf points => points
  | .agg f input => combine f (TimeSeries.seqList input)

/-- The point sequences of the inputs kept by
`AggregatedTimeseries.iter`: nil inputs and inputs whose `iter()` is a
`NilIterator` are omitted. -/
def TimeSeries.seqList : List TimeSeries → List (List (Time × Value))
  | [] => []
  | t :: rest =>
    if TimeSeries.live t then TimeSeries.seq t :: TimeSeries.seqList rest
    else TimeSeries.seqList rest

end

mutual

/-- Embedding of `AggregatedTimeseries.len`: the length of the first non-nil input
(0 when there is none).  A leaf's length is its number of points
(modelled from the spec: "number of steps the series spans"). -/
def TimeSeries.len : TimeSeries → Nat
  | .null => 0
  | .leaf points => points.length
  | .agg _ input => TimeSeries.lenList input

/-- The loop body of `AggregatedTimeseries.len`: return the length of
the first non-nil input. -/
def TimeSeries.lenList : List TimeSeries → Nat
  | [] => 0
  | t :: rest => if t.isNull then TimeSeries.lenList rest else t.len

end

/-- Modelled from the spec: `timeseries.Reduce` (its body is not in the
sources under study).  Spec 4.2, sequential fold: "maintain one running
accumulator, seeded as missing/not-a-number, and repeatedly apply
`F(t, accumulator, next_value)` ... across time"; a nil series reduces
to the missing seed. -/
def Reduce (f : F) : Option TimeSeries → Value
  | none => .nan
  | some ts => ts.seq.foldl (fun acc p => f p.1 acc p.2) .nan

/-- Embedding of `AggregatedTimeseries.last`: reduce the series with the reducer that
unconditionally returns the new value. -/
def TimeSeries.last (ts : TimeSeries) : Value :=
  Reduce (fun _ _ v => v) (some ts)

/-- Modelled from the spec: `timeseries.IsEmpty` (its body is not in the
sources under study).  Spec 4.3 step 1: a series is empty when it is
absent, has "zero length or [is] all-missing". -/
def IsEmpty : Option TimeSeries → Bool
  | none => true
  | some ts => ts.len == 0 || ts.seq.all (fun p => p.2.isNaN)

/-- Severity levels of `model.Status` (modelled from the spec; `UNKNOWN`
is the zero value of the Go type). -/
inductive Status where
  | UNKNOWN : Status
  | OK : Status
  | WARNING : Status
  | CRITICAL : Status
deriving DecidableEq, Repr

/-- Embedding of `model.AlertRule`. -/
structure AlertRule where
  LongWindow : Duration
  ShortWindow : Duration
  BurnRateThreshold : ℚ
  Severity : Status
deriving DecidableEq, Repr

/-- Embedding of `model.AlertRules`, the process-wide rule table, ordered
most-sensitive-first. -/
def AlertRules : List AlertRule :=
  [ { LongWindow := Hour, ShortWindow := 5 * Minute, BurnRateThreshold := 14.4, Severity := .CRITICAL },
    { LongWindow := 6 * Hour, ShortWindow := 30 * Minute, BurnRateThreshold := 6, Severity := .CRITICAL },
    { LongWindow := Day, ShortWindow := 2 * Hour, BurnRateThreshold := 3, Severity := .WARNING },
    { LongWindow := 3 * Day, ShortWindow := 6 * Hour, BurnRateThreshold := 1, Severity := .WARNING } ]

/-- The fatal startup check of `model.init`: does some rule violate
`ShortWindow <= LongWindow`?  (`init` panics exactly when this is
true.) -/
def initRuleViolation : Bool :=
  AlertRules.any (fun r => decide (r.ShortWindow > r.LongWindow))

/-- Embedding of `model.MaxAlertRuleWindow` as computed by `model.init`: start from
one hour and take every strictly larger `LongWindow` encountered while
walking the table. -/
def MaxAlertRuleWindow : Duration :=
  AlertRules.foldl (fun acc r => if r.LongWindow > acc then r.LongWindow else acc) Hour

/-- Embedding of `model.BurnRate`, the verdict. -/
structure BurnRate where
  Value : Coroot.Value
  Window : Duration
  Severity : Status
deriving DecidableEq, Repr

/-- The zero Go value `BurnRate{}` / `BurnRate{Severity: UNKNOWN}`. -/
def BurnRate.zero : BurnRate :=
  { Value := .fin 0, Window := 0, Severity := .UNKNOWN }

/-- The windowed masked reduction `sumFrom` from `CheckBurnRates`:
NaN-aware sum over the whole series, with every point strictly before
`frm` forced to contribute zero. -/
def sumFrom (ts : Option TimeSeries) (frm : Time) : Value :=
  Reduce (fun t accumulator v =>
    if t < frm then .fin 0 else NanSum t accumulator v) ts

/-- The long-window burn-rate ratio computed inside `CheckBurnRates` for
one rule: `sumFrom(bad, now-LongWindow) / sumFrom(total, now-LongWindow)
/ objective` with `objective = 1 - objectivePercentage/100`. -/
def burnRateLong (now : Time) (bad total : Option TimeSeries)
    (objectivePercentage : ℚ) (r : AlertRule) : Value :=
  ((sumFrom bad (now - r.LongWindow)).div
    (sumFrom total (now - r.LongWindow))).div (.fin (1 - objectivePercentage / 100))

/-- The short-window confirmation ratio computed inside `CheckBurnRates`
for one rule. -/
def burnRateShort (now : Time) (bad total : Option TimeSeries)
    (objectivePercentage : ℚ) (r : AlertRule) : Value :=
  ((sumFrom bad (now - r.ShortWindow)).div
    (sumFrom total (now - r.ShortWindow))).div (.fin (1 - objectivePercentage / 100))

/-- The rule loop of `CheckBurnRates`, carrying the `first` fallback
verdict: record the first rule's long ratio, skip a rule whose long
ratio is below its threshold, confirm with the short window, and return
the rule's verdict as soon as both guards pass; when the table is
exhausted return the fallback with severity forced to OK. -/
def checkBurnRatesLoop (now : Time) (bad total : Option TimeSeries)
    (objectivePercentage : ℚ) : List AlertRule → BurnRate → BurnRate
  | [], first => { first with Severity := .OK }
  | r :: rest, first =>
    let brL := burnRateLong now bad total objectivePercentage r
    let first' :=
      if first.Window = 0 then
        { Value := brL, Window := r.LongWindow, Severity := first.Severity }
      else first
    if brL.lt (.fin r.BurnRateThreshold) then
      checkBurnRatesLoop now bad total objectivePercentage rest first'
    else
      let brS := burnRateShort now bad total objectivePercentage r
      if brS.lt (.fin r.BurnRateThreshold) then
        checkBurnRatesLoop now bad total objectivePercentage rest first'
      else { Value := brS, Window := r.LongWindow, Severity := r.Severity }

/-- Embedding of `model.CheckBurnRates`. -/
def CheckBurnRates (now : Time) (bad total : Option TimeSeries)
    (objectivePercentage : ℚ) : BurnRate :=
  if IsEmpty bad || IsEmpty total then { BurnRate.zero with Severity := .UNKNOWN }
  else checkBurnRatesLoop now bad total objectivePercentage AlertRules BurnRate.zero

/-- A dummy rule used as the out-of-range default when indexing the
rule table. -/
def ruleDefault : AlertRule :=
  { LongWindow := 0, ShortWindow := 0, BurnRateThreshold := 0, Severity := .UNKNOWN }

/-- The rule at position `j` of the table (`ruleDefault` past the end). -/
def ruleAt (j : Nat) : AlertRule :=
  AlertRules.getD j ruleDefault


/-- The minimum of a list of naturals (0 for the empty list); used to
state shortest-input-wins termination. -/
def natMinList : List Nat → Nat
  | [] => 0
  | [n] => n
  | n :: m :: r => min n (natMinList (m :: r))

lemma Value.le_imp_not_lt : ∀ {a b : Value}, Value.le a b = true → Value.lt b a = false := by
  intro a b h
  cases a <;> cases b <;>
    simp_all [Value.le, Value.lt]
  rcases h with rfl | ⟨rfl, rfl⟩ <;> simp_all

lemma natMinList_le {x : Nat} : ∀ {l : List Nat}, x ∈ l → natMinList l ≤ x := by
  intro l
  induction l with
  | nil => intro h; cases h
  | cons n rest ih =>
    intro h
    cases rest with
    | nil => simp_all [natMinList]
    | cons m r =>
      rcases List.mem_cons.mp h with rfl | hx
      · simp [natMinList]
      · simp only [natMinList]
        exact le_trans (min_le_right _ _) (ih hx)

lemma le_natMinList {k : Nat} : ∀ {l : List Nat}, l ≠ [] → (∀ x ∈ l, k ≤ x) →
    k ≤ natMinList l := by
  intro l
  induction l with
  | nil => intro h; exact absurd rfl h
  | cons n rest ih =>
    intro _ hall
    cases rest with
    | nil => simpa [natMinList] using hall n (by simp)
    | cons m r =>
      simp only [natMinList]
      refine le_min (hall n (by simp)) (ih (by simp) ?_)
      intro x hx
      exact hall x (List.mem_cons_of_mem _ hx)

lemma natMinList_le_sum : ∀ (l : List Nat), natMinList l ≤ l.sum := by
  intro l
  induction l with
  | nil => simp [natMinList]
  | cons n rest ih =>
    cases rest with
    | nil => simp [natMinList]
    | cons m r =>
      simp only [natMinList]
      calc min n (natMinList (m :: r)) ≤ n := min_le_left _ _
        _ ≤ (n :: m :: r).sum := by simp [List.sum_cons]

lemma natMinList_map_pred : ∀ (l : List Nat),
    natMinList (l.map (fun x => x - 1)) = natMinList l - 1 := by
  intro l
  induction l with
  | nil => simp [natMinList]
  | cons n rest ih =>
    cases rest with
    | nil => simp [natMinList]
    | cons m r =>
      simp only [List.map_cons, natMinList] at ih ⊢
      rw [ih]
      omega

lemma headsTails_eq_none : ∀ (seqs : List (List (Time × Value))),
    headsTails seqs = none ↔ ∃ s ∈ seqs, s = [] := by
  intro seqs
  induction seqs with
  | nil => simp [headsTails]
  | cons s rest ih =>
    cases s with
    | nil => simp [headsTails]
    | cons p tl =>
      simp only [headsTails]
      cases h : headsTails rest with
      | none =>
        obtain ⟨s0, hs0, rfl⟩ := ih.mp h
        constructor
        · intro _
          exact ⟨[], List.mem_cons_of_mem _ hs0, rfl⟩
        · intro _
          rfl
      | some pr =>
        obtain ⟨hs, tls⟩ := pr
        constructor
        · intro hc
          simp at hc
        · rintro ⟨s0, hs0, rfl⟩
          rcases List.mem_cons.mp hs0 with h1 | h2
          · cases h1
          · exact absurd (ih.mpr ⟨[], h2, rfl⟩) (by simp [h])

lemma headsTails_eq_some : ∀ (seqs : List (List (Time × Value))) hs tls,
    headsTails seqs = some (hs, tls) →
    tls.map List.length = seqs.map (fun s => s.length - 1) ∧
    (∀ s ∈ seqs, s ≠ []) ∧ tls.length = seqs.length := by
  intro seqs
  induction seqs with
  | nil =>
    intro hs tls h
    simp only [headsTails, Option.some.injEq, Prod.mk.injEq] at h
    obtain ⟨rfl, rfl⟩ := h
    simp
  | cons s rest ih =>
    intro hs tls h
    cases s with
    | nil => simp [headsTails] at h
    | cons p tl =>
      simp only [headsTails] at h
      cases hr : headsTails rest with
      | none => rw [hr] at h; cases h
      | some pr =>
        obtain ⟨hs0, tls0⟩ := pr
        rw [hr] at h
        simp only [Option.some.injEq, Prod.mk.injEq] at h
        obtain ⟨rfl, rfl⟩ := h
        obtain ⟨h1, h2, h3⟩ := ih hs0 tls0 hr
        refine ⟨by simp [h1], ?_, by simp [h3]⟩
        intro x hx
        rcases List.mem_cons.mp hx with rfl | hx2
        · simp
        · exact h2 x hx2

lemma combineAux_length (f : F) : ∀ (n : Nat) (seqs : List (List (Time × Value))),
    seqs ≠ [] → natMinList (seqs.map List.length) < n →
    (combineAux f n seqs).length = natMinList (seqs.map List.length) := by
  intro n
  induction n with
  | zero => intro seqs _ h; omega
  | succ n ih =>
    intro seqs hne hlt
    cases h : headsTails seqs with
    | none =>
      obtain ⟨s0, hs0, rfl⟩ := (headsTails_eq_none seqs).mp h
      have h0 : (0 : Nat) ∈ seqs.map List.length := List.mem_map.mpr ⟨[], hs0, rfl⟩
      have hz : natMinList (seqs.map List.length) = 0 := Nat.le_zero.mp (natMinList_le h0)
      simp [combineAux, h, hz]
    | some pr =>
      obtain ⟨hs, tls⟩ := pr
      obtain ⟨h1, h2, h3⟩ := headsTails_eq_some seqs hs tls h
      have hone : (1 : Nat) ≤ natMinList (seqs.map List.length) := by
        refine le_natMinList (by simpa using hne) ?_
        intro x hx
        obtain ⟨s0, hs0, rfl⟩ := List.mem_map.mp hx
        exact Nat.one_le_iff_ne_zero.mpr (by simpa [List.length_eq_zero] using h2 s0 hs0)
      have htlsne : tls ≠ [] := by
        intro hc
        rw [hc] at h3
        exact hne (List.length_eq_zero.mp h3.symm)
      have hmin : natMinList (tls.map List.length) = natMinList (seqs.map List.length) - 1 := by
        rw [h1,
          show (seqs.map fun s => s.length - 1) = (seqs.map List.length).map (fun x => x - 1) by
            simp [List.map_map]]
        exact natMinList_map_pred _
      have hlen := ih tls htlsne (by omega)
      simp only [combineAux, h, List.length_cons, hlen, hmin]
      omega

lemma combine_length (f : F) (seqs : List (List (Time × Value))) (hne : seqs ≠ []) :
    (combine f seqs).length = natMinList (seqs.map List.length) := by
  have hempty : seqs.isEmpty = false := by simpa [List.isEmpty_iff] using hne
  rw [combine, hempty]
  simp only [Bool.false_eq_true, if_false]
  refine combineAux_length f _ seqs hne ?_
  have := natMinList_le_sum (seqs.map List.length)
  omega

lemma seqList_eq : ∀ (l : List TimeSeries),
    TimeSeries.seqList l = (l.filter TimeSeries.live).map TimeSeries.seq := by
  intro l
  induction l with
  | nil => rfl
  | cons t rest ih =>
    by_cases h : TimeSeries.live t <;>
      simp [TimeSeries.seqList, List.filter_cons, h, ih]

lemma anyLive_eq : ∀ (l : List TimeSeries),
    TimeSeries.anyLive l = l.any TimeSeries.live := by
  intro l
  induction l with
  | nil => rfl
  | cons t rest ih => simp [TimeSeries.anyLive, ih]

lemma lenList_eq : ∀ (l : List TimeSeries),
    TimeSeries.lenList l = ((l.find? (fun t => !t.isNull)).map TimeSeries.len).getD 0 := by
  intro l
  induction l with
  | nil => rfl
  | cons t rest ih =>
    by_cases h : t.isNull = true
    · rw [TimeSeries.lenList, if_pos h, ih, List.find?_cons_of_neg _ (by simp [h])]
    · rw [TimeSeries.lenList, if_neg h, List.find?_cons_of_pos _ (by simp [h])]
      rfl

lemma foldl_pair_snd (f : F) : ∀ (l : List (Time × Value)) (t0 : Time) (a : Value),
    (l.foldl (fun acc p => (p.1, f p.1 acc.2 p.2)) (t0, a)).2 =
      l.foldl (fun acc p => f p.1 acc p.2) a := by
  intro l
  induction l with
  | nil => intro t0 a; rfl
  | cons p rest ih => intro t0 a; simp [List.foldl_cons, ih]

lemma checkLoop_skip (now : Time) (bad total : Option TimeSeries) (p : ℚ)
    (r : AlertRule) (rest : List AlertRule) (first : BurnRate)
    (h : (burnRateLong now bad total p r).lt (.fin r.BurnRateThreshold) = true ∨
         (burnRateShort now bad total p r).lt (.fin r.BurnRateThreshold) = true) :
    checkBurnRatesLoop now bad total p (r :: rest) first =
      checkBurnRatesLoop now bad total p rest
        (if first.Window = 0 then
          { Value := burnRateLong now bad total p r, Window := r.LongWindow,
            Severity := first.Severity }
        else first) := by
  rcases h with h | h
  · simp [checkBurnRatesLoop, h]
  · by_cases hl : (burnRateLong now bad total p r).lt (.fin r.BurnRateThreshold) = true
    · simp [checkBurnRatesLoop, hl]
    · simp only [Bool.not_eq_true] at hl
      simp [checkBurnRatesLoop, hl, h]

lemma checkLoop_trip (now : Time) (bad total : Option TimeSeries) (p : ℚ)
    (r : AlertRule) (rest : List AlertRule) (first : BurnRate)
    (hl : (burnRateLong now bad total p r).lt (.fin r.BurnRateThreshold) = false)
    (hs : (burnRateShort now bad total p r).lt (.fin r.BurnRateThreshold) = false) :
    checkBurnRatesLoop now bad total p (r :: rest) first =
      { Value := burnRateShort now bad total p r, Window := r.LongWindow,
        Severity := r.Severity } := by
  simp [checkBurnRatesLoop, hl, hs]

lemma checkLoop_first_trip (now : Time) (bad total : Option TimeSeries) (p : ℚ) (d : AlertRule) :
    ∀ (rules : List AlertRule) (j : Nat) (first : BurnRate), j < rules.length →
    (∀ i, i < j →
      (burnRateLong now bad total p (rules.getD i d)).lt
          (.fin (rules.getD i d).BurnRateThreshold) = true ∨
      (burnRateShort now bad total p (rules.getD i d)).lt
          (.fin (rules.getD i d).BurnRateThreshold) = true) →
    (burnRateLong now bad total p (rules.getD j d)).lt
        (.fin (rules.getD j d).BurnRateThreshold) = false →
    (burnRateShort now bad total p (rules.getD j d)).lt
        (.fin (rules.getD j d).BurnRateThreshold) = false →
    checkBurnRatesLoop now bad total p rules first =
      { Value := burnRateShort now bad total p (rules.getD j d),
        Window := (rules.getD j d).LongWindow, Severity := (rules.getD j d).Severity } := by
  intro rules
  induction rules with
  | nil => intro j first hj _ _ _; simp at hj
  | cons r rest ih =>
    intro j first hj hskip hl hs
    cases j with
    | zero =>
      simp only [List.getD_cons_zero] at hl hs ⊢
      exact checkLoop_trip now bad total p r rest first hl hs
    | succ j =>
      have h0 := hskip 0 (Nat.succ_pos j)
      simp only [List.getD_cons_zero] at h0
      rw [checkLoop_skip now bad total p r rest first h0]
      simp only [List.getD_cons_succ] at hl hs ⊢
      refine ih j _ (by simpa using hj) ?_ hl hs
      intro i hi
      have := hskip (i + 1) (by omega)
      simpa [List.getD_cons_succ] using this

lemma checkLoop_all_skip (now : Time) (bad total : Option TimeSeries) (p : ℚ) (d : AlertRule) :
    ∀ (rules : List AlertRule) (first : BurnRate), first.Window ≠ 0 →
    (∀ i, i < rules.length →
      (burnRateLong now bad total p (rules.getD i d)).lt
          (.fin (rules.getD i d).BurnRateThreshold) = true ∨
      (burnRateShort now bad total p (rules.getD i d)).lt
          (.fin (rules.getD i d).BurnRateThreshold) = true) →
    checkBurnRatesLoop now bad total p rules first = { first with Severity := .OK } := by
  intro rules
  induction rules with
  | nil => intro first _ _; rfl
  | cons r rest ih =>
    intro first hw hskip
    have h0 := hskip 0 (by simp)
    simp only [List.getD_cons_zero] at h0
    rw [checkLoop_skip now bad total p r rest first h0, if_neg hw]
    refine ih first hw ?_
    intro i hi
    have := hskip (i + 1) (by simp only [List.length_cons]; omega)
    simpa [List.getD_cons_succ] using this

lemma ratio_zero_total_not_lt (s : Value) (ob thr : ℚ) (hob : 0 < ob)
    (hs : s.lt (.fin 0) = false) :
    ((s.div (.fin 0)).div (.fin ob)).lt (.fin thr) = false := by
  have hob2 : ¬ ob < 0 := by linarith
  cases s with
  | nan => rfl
  | inf b =>
    have hb : b = true := by
      cases b
      · simp [Value.lt] at hs
      · rfl
    subst hb
    simp [Value.div, Value.lt, hob2, lt_irrefl]
  | fin a =>
    have ha : ¬ a < 0 := by simpa [Value.lt] using hs
    by_cases h0 : a = 0
    · subst h0
      simp [Value.div, Value.lt]
    · have hpos : (0 : ℚ) < a := lt_of_le_of_ne (not_lt.mp ha) (Ne.symm h0)
      simp [Value.div, h0, hpos, Value.lt, hob2]

/-- C1 (amended): when the NaN-aware sum of the total series over a
rule's long or short window is zero, the resulting NaN or infinite
ratio compares as not-less-than the rule's threshold (given a positive
objective and a bad sum that does not compare below zero), so the
`< threshold` guard never *skips* the rule on an absent total.  Contrary
to the original claim, such a rule is therefore not prevented from
returning its severity verdict — see the counterexample, where both
windows of the first rule have a zero total and `CheckBurnRates`
returns that rule's CRITICAL verdict. -/
theorem C1_zero_total_not_skipped (now : Time) (bad total : Option TimeSeries)
    (p : ℚ) (r : AlertRule)
    (hob : 0 < 1 - p / 100)
    (hbadL : (sumFrom bad (now - r.LongWindow)).lt (.fin 0) = false)
    (hbadS : (sumFrom bad (now - r.ShortWindow)).lt (.fin 0) = false) :
    (sumFrom total (now - r.LongWindow) = .fin 0 →
      (burnRateLong now bad total p r).lt (.fin r.BurnRateThreshold) = false) ∧
    (sumFrom total (now - r.ShortWindow) = .fin 0 →
      (burnRateShort now bad total p r).lt (.fin r.BurnRateThreshold) = false) := by
  constructor
  · intro h
    rw [burnRateLong, h]
    exact ratio_zero_total_not_lt _ _ _ hob hbadL
  · intro h
    rw [burnRateShort, h]
    exact ratio_zero_total_not_lt _ _ _ hob hbadS

/-- Witness for C1 (amended) at a concrete input: one bad event and a
zero total at the evaluation instant make the first rule's long-window
guard not skip. -/
theorem C1_zero_total_not_skipped_witness :
    (burnRateLong 10000 (some (.leaf [((10000 : Time), Value.fin 1)]))
        (some (.leaf [((10000 : Time), Value.fin 0)])) 99 (ruleAt 0)).lt
      (.fin (ruleAt 0).BurnRateThreshold) = false :=
  (C1_zero_total_not_skipped 10000 (some (.leaf [((10000 : Time), Value.fin 1)]))
      (some (.leaf [((10000 : Time), Value.fin 0)])) 99 (ruleAt 0) (by norm_num)
      (by with_unfolding_all rfl) (by with_unfolding_all rfl)).1
    (by with_unfolding_all rfl)

/-- Counterexample to C1 as stated: non-empty bad/total series whose
total sums over both windows of the first rule are zero, yet
`CheckBurnRates` *does* return that rule's severity verdict (window one
hour, severity CRITICAL) — the NaN/Inf ratio fails the `< threshold`
skip-guard, so the rule trips rather than never tripping. -/
theorem C1_counterexample :
    sumFrom (some (.leaf [((10000 : Time), Value.fin 0)])) (10000 - (ruleAt 0).LongWindow) = .fin 0 ∧
    sumFrom (some (.leaf [((10000 : Time), Value.fin 0)])) (10000 - (ruleAt 0).ShortWindow) = .fin 0 ∧
    IsEmpty (some (TimeSeries.leaf [((10000 : Time), Value.fin 1)])) = false ∧
    IsEmpty (some (TimeSeries.leaf [((10000 : Time), Value.fin 0)])) = false ∧
    CheckBurnRates 10000 (some (.leaf [((10000 : Time), Value.fin 1)]))
        (some (.leaf [((10000 : Time), Value.fin 0)])) 99 =
      { Value := .inf true, Window := (ruleAt 0).LongWindow, Severity := (ruleAt 0).Severity } := by
  refine ⟨?_, ?_, ?_, ?_, ?_⟩ <;> with_unfolding_all rfl

/-- C2: `CheckBurnRates` iterates the rule table in order; when every
earlier rule is skipped (its long-window ratio, or else its short-window
confirmation ratio, is below its threshold) and rule `j`'s long and
short ratios are both at least its threshold, the verdict is
immediately `{Value: short ratio, Window: rule j's LongWindow,
Severity: rule j's Severity}`. -/
theorem C2_first_matching_rule_wins (now : Time) (bad total : Option TimeSeries) (p : ℚ)
    (j : Nat) (hj : j < AlertRules.length)
    (hbad : IsEmpty bad = false) (htot : IsEmpty total = false)
    (hskip : ∀ i, i < j →
      (burnRateLong now bad total p (ruleAt i)).lt (.fin (ruleAt i).BurnRateThreshold) = true ∨
      (burnRateShort now bad total p (ruleAt i)).lt (.fin (ruleAt i).BurnRateThreshold) = true)
    (hlong : Value.le (.fin (ruleAt j).BurnRateThreshold)
      (burnRateLong now bad total p (ruleAt j)) = true)
    (hshort : Value.le (.fin (ruleAt j).BurnRateThreshold)
      (burnRateShort now bad total p (ruleAt j)) = true) :
    CheckBurnRates now bad total p =
      { Value := burnRateShort now bad total p (ruleAt j),
        Window := (ruleAt j).LongWindow, Severity := (ruleAt j).Severity } := by
  rw [CheckBurnRates, hbad, htot]
  simp only [Bool.or_self, Bool.false_eq_true, if_false]
  exact checkLoop_first_trip now bad total p ruleDefault
    AlertRules j BurnRate.zero hj hskip
    (Value.le_imp_not_lt hlong) (Value.le_imp_not_lt hshort)

/-- Witness for C2 at a concrete input: a constant failure ratio of
100x the allowed failure fraction trips the first rule on both windows
and returns its CRITICAL verdict with the short-window ratio as value. -/
theorem C2_first_matching_rule_wins_witness :
    CheckBurnRates 10000 (some (.leaf [((10000 : Time), Value.fin 1)]))
        (some (.leaf [((10000 : Time), Value.fin 1)])) 99 =
      { Value := .fin 100, Window := Hour, Severity := .CRITICAL } :=
  (C2_first_matching_rule_wins 10000 (some (.leaf [((10000 : Time), Value.fin 1)]))
      (some (.leaf [((10000 : Time), Value.fin 1)])) 99 0 (by simp [AlertRules])
      (by with_unfolding_all rfl) (by with_unfolding_all rfl)
      (fun i hi => absurd hi (by omega))
      (by with_unfolding_all rfl) (by with_unfolding_all rfl)).trans
    (by with_unfolding_all rfl)

/-- C3: whenever either input series is empty (absent, zero length or
all-missing), `CheckBurnRates` returns the verdict
`{Severity: UNKNOWN, Value: 0, Window: 0}`. -/
theorem C3_empty_input_unknown (now : Time) (bad total : Option TimeSeries) (p : ℚ)
    (h : IsEmpty bad = true ∨ IsEmpty total = true) :
    CheckBurnRates now bad total p =
      { Value := .fin 0, Window := 0, Severity := .UNKNOWN } := by
  rcases h with h | h <;> simp [CheckBurnRates, h, BurnRate.zero]

/-- Witness for C3 at a concrete input: a zero-length bad series gives
the UNKNOWN verdict. -/
theorem C3_empty_input_unknown_witness :
    CheckBurnRates 0 (some (TimeSeries.leaf [])) (some (.leaf [((0 : Time), Value.fin 1)])) 99 =
      { Value := .fin 0, Window := 0, Severity := .UNKNOWN } :=
  C3_empty_input_unknown 0 (some (TimeSeries.leaf []))
    (some (.leaf [((0 : Time), Value.fin 1)])) 99 (Or.inl (by with_unfolding_all rfl))

/-- C4: when every rule is skipped (each rule's long-window ratio, or
else its short-window confirmation ratio, is below its threshold),
`CheckBurnRates` returns the fallback recorded from the first rule:
the first rule's long-window ratio as value, the first rule's
LongWindow (one hour) as window, and severity forced to OK. -/
theorem C4_no_rule_trips_fallback (now : Time) (bad total : Option TimeSeries) (p : ℚ)
    (hbad : IsEmpty bad = false) (htot : IsEmpty total = false)
    (hskip : ∀ i, i < AlertRules.length →
      (burnRateLong now bad total p (ruleAt i)).lt (.fin (ruleAt i).BurnRateThreshold) = true ∨
      (burnRateShort now bad total p (ruleAt i)).lt (.fin (ruleAt i).BurnRateThreshold) = true) :
    CheckBurnRates now bad total p =
      { Value := burnRateLong now bad total p (ruleAt 0), Window := Hour,
        Severity := .OK } := by
  rw [CheckBurnRates, hbad, htot]
  simp only [Bool.or_self, Bool.false_eq_true, if_false]
  have h0 := hskip 0 (by simp [AlertRules])
  show checkBurnRatesLoop now bad total p (ruleAt 0 :: [ruleAt 1, ruleAt 2, ruleAt 3])
    BurnRate.zero = _
  rw [checkLoop_skip now bad total p (ruleAt 0) [ruleAt 1, ruleAt 2, ruleAt 3] BurnRate.zero h0,
    if_pos (show BurnRate.zero.Window = 0 from rfl)]
  have hsk : ∀ i, i < ([ruleAt 1, ruleAt 2, ruleAt 3] : List AlertRule).length →
      (burnRateLong now bad total p
          (([ruleAt 1, ruleAt 2, ruleAt 3] : List AlertRule).getD i ruleDefault)).lt
        (.fin ((([ruleAt 1, ruleAt 2, ruleAt 3] : List AlertRule).getD i
          ruleDefault).BurnRateThreshold)) = true ∨
      (burnRateShort now bad total p
          (([ruleAt 1, ruleAt 2, ruleAt 3] : List AlertRule).getD i ruleDefault)).lt
        (.fin ((([ruleAt 1, ruleAt 2, ruleAt 3] : List AlertRule).getD i
          ruleDefault).BurnRateThreshold)) = true := by
    intro i hi
    have hi3 : i < 3 := by simpa using hi
    interval_cases i
    · simpa [List.getD_cons_zero, List.getD_cons_succ] using hskip 1 (by simp [AlertRules])
    · simpa [List.getD_cons_zero, List.getD_cons_succ] using hskip 2 (by simp [AlertRules])
    · simpa [List.getD_cons_zero, List.getD_cons_succ] using hskip 3 (by simp [AlertRules])
  have hw : (ruleAt 0).LongWindow ≠ 0 := by decide
  rw [checkLoop_all_skip now bad total p ruleDefault [ruleAt 1, ruleAt 2, ruleAt 3]
    { Value := burnRateLong now bad total p (ruleAt 0), Window := (ruleAt 0).LongWindow,
      Severity := BurnRate.zero.Severity }
    hw hsk]
  rfl

/-- Witness for C4 at a concrete input: a zero failure ratio skips all
four rules and returns the OK fallback with the one-hour window. -/
theorem C4_no_rule_trips_fallback_witness :
    CheckBurnRates 10000 (some (.leaf [((10000 : Time), Value.fin 0)]))
        (some (.leaf [((10000 : Time), Value.fin 1)])) 99 =
      { Value := .fin 0, Window := Hour, Severity := .OK } := by
  refine (C4_no_rule_trips_fallback 10000 (some (.leaf [((10000 : Time), Value.fin 0)]))
      (some (.leaf [((10000 : Time), Value.fin 1)])) 99
      (by with_unfolding_all rfl) (by with_unfolding_all rfl) ?_).trans
    (by with_unfolding_all rfl)
  intro i hi
  have hi4 : i < 4 := by simpa [AlertRules] using hi
  interval_cases i <;> exact Or.inl (by with_unfolding_all rfl)

/-- C5 (amended): the aggregating iterator's `Next()` reports
exhaustion as soon as any iterator in its lockstep set is exhausted, so
the output sequence of an aggregated series ends at the shortest *live*
input — its length is the minimum of the kept inputs' sequence lengths.
Contrary to the original claim, an empty (NilIterator-producing) input
does not terminate the aggregation: it is omitted from the lockstep set
by `iter()` (see the counterexample). -/
theorem C5_shortest_live_input_wins (f : F) (input : List TimeSeries)
    (h : input.filter TimeSeries.live ≠ []) :
    ((TimeSeries.agg f input).seq).length =
      natMinList (((input.filter TimeSeries.live).map TimeSeries.seq).map List.length) := by
  rw [TimeSeries.seq, seqList_eq]
  exact combine_length f _ (by simpa using h)

/-- Witness for C5 (amended) at a concrete input: two live inputs of
lengths two and one produce an output of length one. -/
theorem C5_shortest_live_input_wins_witness :
    ((TimeSeries.agg NanSum [TimeSeries.leaf [((0 : Time), Value.fin 1), ((1 : Time), Value.fin 2)],
        TimeSeries.leaf [((0 : Time), Value.fin 3)]]).seq).length =
      natMinList ((([TimeSeries.leaf [((0 : Time), Value.fin 1), ((1 : Time), Value.fin 2)],
        TimeSeries.leaf [((0 : Time), Value.fin 3)]].filter
          TimeSeries.live).map TimeSeries.seq).map List.length) :=
  C5_shortest_live_input_wins NanSum
    [TimeSeries.leaf [((0 : Time), Value.fin 1), ((1 : Time), Value.fin 2)],
      TimeSeries.leaf [((0 : Time), Value.fin 3)]]
    (by simp [List.filter, TimeSeries.live])

/-- Counterexample to C5 as stated: an aggregation whose input list
contains an empty series (an input aggregation over zero inputs, whose
sequence and length are both zero) still yields one point — the output
does not end at the shortest input when that input is empty, because
the empty input's `NilIterator` is omitted from the lockstep set. -/
theorem C5_counterexample :
    ((TimeSeries.agg NanSum [TimeSeries.leaf [((0 : Time), Value.fin 1)],
        TimeSeries.agg NanSum []]).seq).length = 1 ∧
    ((TimeSeries.agg NanSum ([] : List TimeSeries)).seq).length = 0 ∧
    TimeSeries.len (TimeSeries.agg NanSum ([] : List TimeSeries)) = 0 := by
  refine ⟨?_, ?_, ?_⟩ <;> with_unfolding_all rfl

/-- C6: `aggregatingIterator.Value` applies the reducer directly to the
two current values (at the first input's timestamp) when there are
exactly two inputs, and for any other number of inputs folds the
current values left-to-right through the reducer from the NaN-seeded
accumulator. -/
theorem C6_two_inputs_direct_else_fold (f : F) :
    (∀ (t1 t2 : Time) (v1 v2 : Value),
      aggValue f [(t1, v1), (t2, v2)] = (t1, f t1 v1 v2)) ∧
    ∀ (cur : List (Time × Value)), cur.length ≠ 2 →
      (aggValue f cur).2 = cur.foldl (fun acc pt => f pt.1 acc pt.2) Value.nan := by
  constructor
  · intro t1 t2 v1 v2
    rfl
  · intro cur h
    rw [aggValue, if_neg h]
    exact foldl_pair_snd f cur 0 Value.nan

/-- Witness for C6 at concrete inputs: the two-input case applies the
reducer directly, and a one-input list goes through the NaN-seeded
fold. -/
theorem C6_two_inputs_direct_else_fold_witness :
    aggValue NanSum [((3 : Time), Value.fin 1), ((4 : Time), Value.fin 2)] =
      (3, NanSum 3 (Value.fin 1) (Value.fin 2)) ∧
    (aggValue NanSum [((5 : Time), Value.fin 7)]).2 =
      [((5 : Time), Value.fin 7)].foldl (fun acc pt => NanSum pt.1 acc pt.2) Value.nan :=
  ⟨(C6_two_inputs_direct_else_fold NanSum).1 3 4 (Value.fin 1) (Value.fin 2),
    (C6_two_inputs_direct_else_fold NanSum).2 [((5 : Time), Value.fin 7)] (by decide)⟩

/-- C7 (amended): the length of an aggregated series is the length of
its *first* non-nil input (0 when there is none), not the minimum of
its inputs' lengths; for two non-nil inputs it equals the shorter of
the two lengths exactly when the first input is the shorter one (as in
the aligned equal-length case).  The counterexample shows a first input
longer than the second, where `len()` differs from the minimum. -/
theorem C7_len_first_non_nil (f : F) (a b : TimeSeries) (ha : a.isNull = false) :
    TimeSeries.len (.agg f [a, b]) = TimeSeries.len a ∧
    (TimeSeries.len a ≤ TimeSeries.len b →
      TimeSeries.len (.agg f [a, b]) = min (TimeSeries.len a) (TimeSeries.len b)) ∧
    TimeSeries.len (.agg f []) = 0 := by
  have h1 : TimeSeries.len (.agg f [a, b]) = TimeSeries.len a := by
    rw [TimeSeries.len, TimeSeries.lenList, if_neg (by simp [ha])]
  exact ⟨h1, fun hle => by rw [h1, min_eq_left hle], rfl⟩

/-- Witness for C7 (amended) at a concrete input: with the shorter
series first, `len()` does equal the minimum of the two lengths. -/
theorem C7_len_first_non_nil_witness :
    TimeSeries.len (.agg NanSum [TimeSeries.leaf [((0 : Time), Value.fin 1)],
        TimeSeries.leaf [((0 : Time), Value.fin 2), ((1 : Time), Value.fin 3)]]) =
      min (TimeSeries.len (TimeSeries.leaf [((0 : Time), Value.fin 1)]))
        (TimeSeries.len (TimeSeries.leaf [((0 : Time), Value.fin 2), ((1 : Time), Value.fin 3)])) :=
  ((C7_len_first_non_nil NanSum (TimeSeries.leaf [((0 : Time), Value.fin 1)])
      (TimeSeries.leaf [((0 : Time), Value.fin 2), ((1 : Time), Value.fin 3)])
      (by rfl)).2).1 (by decide)

/-- Counterexample to C7 as stated: an aggregated series over inputs of
lengths two and one has `len() = 2`, not the claimed shorter length 1. -/
theorem C7_counterexample :
    TimeSeries.len (TimeSeries.agg NanSum
        [TimeSeries.leaf [((0 : Time), Value.fin 1), ((1 : Time), Value.fin 2)],
          TimeSeries.leaf [((0 : Time), Value.fin 3)]]) = 2 ∧
    min (TimeSeries.len (TimeSeries.leaf [((0 : Time), Value.fin 1), ((1 : Time), Value.fin 2)]))
        (TimeSeries.len (TimeSeries.leaf [((0 : Time), Value.fin 3)])) = 1 ∧
    (2 : Nat) ≠ 1 := by
  refine ⟨?_, ?_, ?_⟩
  · with_unfolding_all rfl
  · with_unfolding_all rfl
  · decide

/-- C8 (amended): the last-value reduction returns the value of the
*final* point of the series whether it is present or missing — its
reducer returns the new value unconditionally, so a trailing missing
point yields missing rather than the most recent present value (see the
counterexample). -/
theorem C8_last_returns_final_value (ts : TimeSeries) (l : List (Time × Value))
    (t : Time) (v : Value) (h : ts.seq = l ++ [(t, v)]) :
    ts.last = v := by
  rw [TimeSeries.last, Reduce, h, List.foldl_append]
  rfl

/-- Witness for C8 (amended) at a concrete input: the final (present)
value is returned. -/
theorem C8_last_returns_final_value_witness :
    TimeSeries.last (TimeSeries.agg NanSum
        [TimeSeries.leaf [((0 : Time), Value.fin 1), ((1 : Time), Value.fin 5)]]) =
      Value.fin 5 :=
  C8_last_returns_final_value
    (TimeSeries.agg NanSum [TimeSeries.leaf [((0 : Time), Value.fin 1), ((1 : Time), Value.fin 5)]])
    [((0 : Time), Value.fin 1)] 1 (Value.fin 5) (by with_unfolding_all rfl)

/-- Counterexample to C8 as stated: a series holding a present value 1
followed by a missing point; the most recent *present* value is 1, but
`last()` returns missing — a trailing missing point does replace the
earlier present value. -/
theorem C8_counterexample :
    TimeSeries.seq (TimeSeries.agg NanSum
        [TimeSeries.leaf [((0 : Time), Value.fin 1), ((1 : Time), Value.nan)]]) =
      [((0 : Time), Value.fin 1), ((1 : Time), Value.nan)] ∧
    TimeSeries.last (TimeSeries.agg NanSum
        [TimeSeries.leaf [((0 : Time), Value.fin 1), ((1 : Time), Value.nan)]]) = Value.nan ∧
    Value.nan ≠ Value.fin 1 := by
  refine ⟨?_, ?_, ?_⟩
  · with_unfolding_all rfl
  · with_unfolding_all rfl
  · decide

/-- C9: the startup check of the rule table finds no rule with
`ShortWindow > LongWindow` (the fatal branch is unreachable for the
shipped four-rule table), and `MaxAlertRuleWindow`, computed by the
init walk starting from one hour and keeping every strictly larger
`LongWindow`, equals the fold of `max` over the table's long windows
seeded with one hour, which is three days. -/
theorem C9_rule_table_startup_invariant :
    initRuleViolation = false ∧
    MaxAlertRuleWindow = AlertRules.foldl (fun acc r => max acc r.LongWindow) Hour ∧
    MaxAlertRuleWindow = 3 * Day := by
  refine ⟨?_, ?_, ?_⟩ <;> with_unfolding_all rfl

/-- C10: `AggregatedTimeseries.iter` omits every input whose own
iterator is the distinguished `NilIterator`, so iterating an
aggregation yields exactly the same point sequence as iterating the
aggregation over only its live (non-nil, non-NilIterator-producing)
inputs; and the aggregation's own iterator is live exactly when some
input is live — i.e. `iter()` returns a `NilIterator` iff no input
yields a non-Nil iterator. -/
theorem C10_nil_iterators_omitted (f : F) (input : List TimeSeries) :
    (TimeSeries.agg f input).seq = (TimeSeries.agg f (input.filter TimeSeries.live)).seq ∧
    TimeSeries.live (TimeSeries.agg f input) = input.any TimeSeries.live := by
  constructor
  · have hid : (input.filter TimeSeries.live).filter TimeSeries.live =
        input.filter TimeSeries.live :=
      List.filter_eq_self.mpr (fun x hx => (List.mem_filter.mp hx).2)
    rw [TimeSeries.seq, TimeSeries.seq, seqList_eq, seqList_eq, hid]
  · rw [TimeSeries.live, anyLive_eq]

end Coroot
